import Mathlib

/-!
Verification development for the AI PR Comment Fixer bot
(webhook-triggered automation: GitHub PR comment events are analyzed by an
LLM and, when approved, materialized as a pushed fix branch).

The TypeScript services are shallowly embedded:
* pure computations (response validation, message templates, branch naming,
  hex decoding) become Lean functions translated line by line;
* every external call (GitHub REST, OpenAI chat completion, git transport,
  filesystem writes) is modelled by an explicit outcome supplied in an
  `Env` record, `Except String α` standing for a throwing call;
* the orchestration pipeline (`CommentProcessor.processComment` and the
  webhook handler `handleCommentEvent`) becomes a function producing the
  ordered list of performed side effects (`Eff` trace).

JavaScript numbers are modelled by `Rat` (all numeric code under test is
exact comparison against 0 and 1), JSON values by the `Json` inductive.
-/

/-- JSON values, as produced by `JSON.parse` in `openai.ts`.
`obj` keeps fields in order; property access is assoc lookup. -/
inductive Json where
  | null : Json
  | bool (b : Bool) : Json
  | num (q : Rat) : Json
  | str (s : String) : Json
  | arr (elems : List Json) : Json
  | obj (fields : List (String × Json)) : Json

/-- JavaScript property access `v.key`: `none` models `undefined`
(absent field, or access on a non-object value). -/
def Json.lookup (v : Json) (key : String) : Option Json :=
  match v with
  | .obj fields => (fields.find? (fun p => p.1 = key)).map (·.2)
  | _ => none

/-- `CodeChange` from `types/index.ts`.  `lineNumber` is declared
`number | undefined` there, but `parseAIResponse` copies it from the model
reply without any runtime check, so its runtime type is any JSON value. -/
structure CodeChange where
  filename : String
  content : String
  lineNumber : Option Json
  description : String

/-- `AIAnalysisResult` from `types/index.ts`. -/
structure AIAnalysisResult where
  shouldApply : Bool
  changes : List CodeChange
  reasoning : String
  confidence : Rat

/-- `GitHubComment` from `types/index.ts` (`user.login` flattened). -/
structure GitHubComment where
  id : Nat
  body : String
  userLogin : String
  created_at : String
  updated_at : String

/-- `GitHubPR` from `types/index.ts` (head/base refs flattened). -/
structure GitHubPR where
  number : Nat
  title : String
  body : String
  headRef : String
  headSha : String
  baseRef : String
  baseSha : String
  state : String
  mergeable : Bool

/-- `GitHubFile` from `types/index.ts`. -/
structure GitHubFile where
  filename : String
  status : String
  additions : Nat
  deletions : Nat
  changes : Nat
  patch : Option String

/-- Repository identity part of the webhook payload. -/
structure Repository where
  full_name : String
  name : String
  ownerLogin : String

/-- `GitHubWebhookPayload` from `types/index.ts`. -/
structure GitHubWebhookPayload where
  action : String
  comment : Option GitHubComment
  pull_request : Option GitHubPR
  repository : Repository
  senderLogin : String

/-- Decimal digits of a natural number, most significant first
(fuel-indexed so the definition is structural and kernel-evaluable).
Models JavaScript number-to-string conversion for naturals. -/
def natDigitsAux : Nat → Nat → List Char
  | 0, _ => []
  | fuel + 1, n =>
    if n < 10 then [Char.ofNat (48 + n)]
    else natDigitsAux fuel (n / 10) ++ [Char.ofNat (48 + n % 10)]

/-- Decimal digits of `n`, most significant first. -/
def natDigits (n : Nat) : List Char := natDigitsAux (n + 1) n

/-- Decimal string of a natural number (JS `${n}` for naturals). -/
def natStr (n : Nat) : String := String.mk (natDigits n)

/-- Decimal string of an integer. -/
def intStr (i : Int) : String :=
  if i < 0 then "-" ++ natStr i.natAbs else natStr i.natAbs

/-- `Math.round(q * 100)` from the comment templates.
JS `Math.round x = ⌊x + 1/2⌋`, so `Math.round (q*100) = ⌊(200*num+den)/(2*den)⌋`,
computed on the normalized fraction so the kernel can evaluate it. -/
def roundPercent (q : Rat) : Int := Int.fdiv (200 * q.num + (q.den : Int)) (2 * (q.den : Int))

namespace OpenAIService

/-- The safe default verdict built in the `catch` of
`OpenAIService.parseAIResponse` (openai.ts lines 166-171). -/
def parseFailure (msg : String) : AIAnalysisResult :=
  { shouldApply := false
    changes := []
    reasoning := "Failed to parse AI response: " ++ msg
    confidence := 0 }

/-- The safe default verdict built in the `catch` of
`OpenAIService.analyzeComment` (openai.ts lines 44-50). -/
def analysisFailure (msg : String) : AIAnalysisResult :=
  { shouldApply := false
    changes := []
    reasoning := "Error analyzing comment: " ++ msg
    confidence := 0 }

/-- Per-change validation loop of `parseAIResponse`
(openai.ts lines 137-154): `filename`, `content` and `description` must be
strings; `lineNumber` is copied through with no check. -/
def parseChanges (idx : Nat) : List Json → Except String (List CodeChange)
  | [] => .ok []
  | j :: rest =>
    match j.lookup "filename" with
    | some (.str fn) =>
      match j.lookup "content" with
      | some (.str ct) =>
        match j.lookup "description" with
        | some (.str d) =>
          match parseChanges (idx + 1) rest with
          | .ok cs =>
            .ok ({ filename := fn, content := ct,
                   lineNumber := j.lookup "lineNumber", description := d } :: cs)
          | .error e => .error e
        | _ => .error ("Invalid description in change " ++ natStr idx)
      | _ => .error ("Invalid content in change " ++ natStr idx)
    | _ => .error ("Invalid filename in change " ++ natStr idx)

/-- The `try` body of `parseAIResponse` after `JSON.parse`
(openai.ts lines 120-161): structural validation of the reply. -/
def parseAIResponseCore (j : Json) : Except String AIAnalysisResult :=
  match j.lookup "shouldApply" with
  | some (.bool b) =>
    match j.lookup "confidence" with
    | some (.num q) =>
      if q < 0 ∨ q > 1 then .error "Invalid confidence field"
      else
        match j.lookup "reasoning" with
        | some (.str r) =>
          match j.lookup "changes" with
          | some (.arr l) =>
            match parseChanges 0 l with
            | .ok cs => .ok { shouldApply := b, changes := cs, reasoning := r, confidence := q }
            | .error e => .error e
          | _ => .error "Invalid changes field"
        | _ => .error "Invalid reasoning field"
    | _ => .error "Invalid confidence field"
  | _ => .error "Invalid shouldApply field"

/-- `OpenAIService.parseAIResponse` (openai.ts lines 109-173).
The regex JSON extraction plus the external `JSON.parse` are modelled by
the argument: `.error msg` when no JSON object substring was found or
`JSON.parse` threw, `.ok j` for the parsed value.  Every thrown validation
error is caught and downgraded to the safe default. -/
def parseAIResponse (parsed : Except String Json) : AIAnalysisResult :=
  match parsed with
  | .error e => parseFailure e
  | .ok j =>
    match parseAIResponseCore j with
    | .ok r => r
    | .error e => parseFailure e

/-- `OpenAIService.analyzeComment` (openai.ts lines 17-52).
The external chat-completion call is modelled by the argument:
`.error msg` for a transport/API failure, `.ok none` for a reply with no
content (`choices[0]?.message?.content` falsy, which throws
`No response from OpenAI` inside the same `try`), and `.ok (some parsed)`
for a reply whose text went through extraction + `JSON.parse` as in
`parseAIResponse`. -/
def analyzeComment (apiOutcome : Except String (Option (Except String Json))) :
    AIAnalysisResult :=
  match apiOutcome with
  | .error e => analysisFailure e
  | .ok none => analysisFailure "No response from OpenAI"
  | .ok (some parsed) => parseAIResponse parsed

/-- `OpenAIService.generateChangeSummary` (openai.ts lines 178-208):
the summary completion call, with the fixed fallback sentence on API
failure or falsy content (JS `||`, so the empty string also falls back). -/
def generateChangeSummary (apiOutcome : Except String (Option String)) : String :=
  match apiOutcome with
  | .ok (some s) => if s.isEmpty then "Applied suggested changes" else s
  | .ok none => "Applied suggested changes"
  | .error _ => "Applied suggested changes"

end OpenAIService

example : (OpenAIService.analyzeComment (.error "boom")).confidence = 0 := rfl
example :
    OpenAIService.parseAIResponse (.ok (.obj [("shouldApply", .bool true)])) =
      OpenAIService.parseFailure "Invalid confidence field" := rfl
example :
    (OpenAIService.parseAIResponse (.ok (.obj
      [("shouldApply", .bool true), ("confidence", .num (mkRat 1 2)),
       ("reasoning", .str "ok"), ("changes", .arr [])]))).shouldApply = true := rfl
example : roundPercent (mkRat 9 10) = 90 := by decide

/-- Hex value of one character (Node `Buffer.from(_, 'hex')` semantics). -/
def hexVal (c : Char) : Option Nat :=
  if '0' ≤ c ∧ c ≤ '9' then some (c.toNat - 48)
  else if 'a' ≤ c ∧ c ≤ 'f' then some (c.toNat - 87)
  else if 'A' ≤ c ∧ c ≤ 'F' then some (c.toNat - 55)
  else none

/-- Node `Buffer.from(s, 'hex')`: decode pairs of hex digits, truncating at
the first invalid character or odd leftover (it never throws). -/
def hexDecodeAux : List Char → List Nat
  | c1 :: c2 :: rest =>
    match hexVal c1, hexVal c2 with
    | some hi, some lo => (16 * hi + lo) :: hexDecodeAux rest
    | _, _ => []
  | _ => []

/-- Byte list decoded from a hex string. -/
def hexDecode (s : String) : List Nat := hexDecodeAux s.data

/-- Node `crypto.timingSafeEqual` on two byte buffers: throws
(`.error`) when the buffer lengths differ, otherwise reports equality.
(The constant-time aspect is not representable and not claimed here.) -/
def timingSafeEqualBytes (a b : List Nat) : Except String Bool :=
  if a.length = b.length then .ok (decide (a = b))
  else .error "Input buffers must have the same byte length"

/-- `crypto.timingSafeEqual` applied to `Buffer.from` of two JS strings
(UTF-8 bytes): lengths agree iff the UTF-8 byte sizes agree, and equal
byte content iff the strings are equal. -/
def timingSafeEqualStrings (a b : String) : Except String Bool :=
  if a.utf8ByteSize = b.utf8ByteSize then .ok (decide (a = b))
  else .error "Input buffers must have the same byte length"

/-- `String.startsWith`, phrased on the underlying character lists so the
kernel can evaluate it. -/
def strStartsWith (s p : String) : Bool := p.data.isPrefixOf s.data

/-- `GitHubService.verifyWebhookSignature`, Buffer-payload variant
(git.ts lines 223-244).  The external
`crypto.createHmac('sha256', secret).update(payload).digest('hex')` is
modelled by the `hmacHexDigest` argument (its output is always a 64-char
hex string).  The `sha256=` prefix is stripped, both sides are hex-decoded
into buffers, and the `timingSafeEqual` throw is caught, returning false. -/
def verifyWebhookSignatureBuf (hmacHexDigest : String) (signature : String) : Bool :=
  let signatureHex := if strStartsWith signature "sha256=" then signature.drop 7 else signature
  match timingSafeEqualBytes (hexDecode signatureHex) (hexDecode hmacHexDigest) with
  | .ok b => b
  | .error _ => false

/-- `GitHubService.verifyWebhookSignature`, string-payload variant
(git.ts lines 352-362) — the one invoked from the webhook route in
index.ts line 44.  It compares the raw signature header against
`"sha256=" ++ digest` with `crypto.timingSafeEqual` and has **no**
try/catch, so a length mismatch propagates as a thrown error. -/
def verifyWebhookSignatureStr (hmacHexDigest : String) (signature : String) :
    Except String Bool :=
  timingSafeEqualStrings signature ("sha256=" ++ hmacHexDigest)

/-- A sample value standing for an HMAC-SHA256 hex digest (64 hex chars). -/
def sampleDigest : String :=
  "0123456789abcdef0123456789abcdef0123456789abcdef0123456789abcdef"

namespace GitService

/-- `GitService.createFixBranch` (git.ts lines 55-66): the returned branch
name.  `Date.now()` is the `nowMs` argument; the base branch is checked
out and pulled but does not enter the name. -/
def createFixBranch (baseBranch : String) (prNumber : Nat) (nowMs : Nat) : String :=
  let _ := baseBranch
  "fix/pr-" ++ natStr prNumber ++ "-" ++ natStr nowMs

/-- One `fs.writeFileSync` on the working copy, modelled as association
update on a filename-keyed list (the filesystem). -/
def fsWrite : List (String × String) → String → String → List (String × String)
  | [], fn, c => [(fn, c)]
  | p :: rest, fn, c => if p.1 = fn then (fn, c) :: rest else p :: fsWrite rest fn c

/-- `GitService.applyChanges` (git.ts lines 71-85): overwrite each target
file with the proposed full content, in order (last writer wins). -/
def applyChanges (fs : List (String × String)) (changes : List CodeChange) :
    List (String × String) :=
  changes.foldl (fun acc c => fsWrite acc c.filename c.content) fs

/-- File content lookup in the filesystem model. -/
def lookupFs : List (String × String) → String → Option String
  | [], _ => none
  | p :: rest, fn => if p.1 = fn then some p.2 else lookupFs rest fn

/-- The `modified`/`created` lists of simple-git `StatusResult` consumed
by `commitChanges`. -/
structure StatusResult where
  modified : List String
  created : List String

/-- `git status` against the committed tree: a file is `modified` when its
worktree content differs from the committed content, `created` when it is
staged but absent from the committed tree. -/
def gitStatusOf (committed worktree : List (String × String)) : StatusResult :=
  { modified := (worktree.filter (fun p =>
      match lookupFs committed p.1 with
      | some c => c != p.2
      | none => false)).map (·.1)
    created := (worktree.filter (fun p => (lookupFs committed p.1).isNone)).map (·.1) }

/-- The structured commit message of `commitChanges` (git.ts lines 101-114). -/
def commitMessage (prNumber commentId : Nat) (changes : List CodeChange) : String :=
  "fix: Apply PR comment suggestions\n\nPR: #" ++ natStr prNumber ++
  "\nComment: #" ++ natStr commentId ++ "\n\nChanges:\n" ++
  String.intercalate "\n" (changes.map (fun c => "- " ++ c.filename ++ ": " ++ c.description)) ++
  "\n\nApplied by AI Comment Fixer Bot"

/-- `GitService.commitChanges` (git.ts lines 90-119): after staging the
change filenames, throw `No changes to commit` when the repository status
reports no modified and no created files; otherwise run `git commit`
(external — its outcome, the new commit sha or a failure, is the
`commitOutcome` argument). -/
def commitChanges (prNumber commentId : Nat) (changes : List CodeChange)
    (status : StatusResult) (commitOutcome : Except String String) :
    Except String String :=
  let _ := commitMessage prNumber commentId changes
  if status.modified.length = 0 ∧ status.created.length = 0 then
    .error "No changes to commit"
  else commitOutcome

end GitService

/-- Kind of PR comment posted by the bot. -/
inductive CommentKind where
  | analysis : CommentKind
  | success : CommentKind
  | error : CommentKind
deriving DecidableEq

/-- One observable side effect of the pipeline, in execution order.
Events are recorded for *completed* operations only (a call whose modelled
outcome is `.error` performed no durable effect in this model). -/
inductive Eff where
  | fetchFiles : Eff
  | fetchContent (filename : String) : Eff
  | aiAnalyze : Eff
  | gitSetup : Eff
  | gitCheckout (branch : String) : Eff
  | gitPull : Eff
  | gitCreateBranch (name : String) : Eff
  | fileWrite (filename content : String) : Eff
  | gitAdd (files : List String) : Eff
  | gitCommit : Eff
  | gitPush (branch : String) : Eff
  | postComment (kind : CommentKind) (body : String) : Eff
deriving DecidableEq

/-- Outcomes of every external call the pipeline makes, plus the ambient
configuration.  `Except String α` models a call that can throw. -/
structure Env where
  /-- `config.git.userName` (`GIT_USER_NAME`): the bot identity configured
  at startup; used as the git committer name in `setupRepository`. -/
  botUserName : String
  /-- `githubService.getPullRequestFiles`. -/
  filesResult : Except String (List GitHubFile)
  /-- `githubService.getFileContent`, per filename. -/
  contentResult : String → Except String String
  /-- the chat-completion call inside `openaiService.analyzeComment`
  (see `OpenAIService.analyzeComment` for the encoding). -/
  aiApiResult : Except String (Option (Except String Json))
  /-- the chat-completion call inside `generateChangeSummary`. -/
  summaryApiResult : Except String (Option String)
  /-- `gitService.setupRepository` (clone-or-pull, config, checkout base). -/
  setupResult : Except String Unit
  /-- `git.checkout`, per branch. -/
  checkoutResult : String → Except String Unit
  /-- the `git.pull` inside `createFixBranch`. -/
  pullResult : Except String Unit
  /-- `git.checkoutLocalBranch`, per branch name. -/
  checkoutLocalResult : String → Except String Unit
  /-- `fs.writeFileSync` in `applyChanges`, per filename. -/
  writeResult : String → Except String Unit
  /-- `git.add` on the staged filenames. -/
  addResult : Except String Unit
  /-- the `git.status()` read inside `commitChanges`. -/
  statusResult : GitService.StatusResult
  /-- the `git.commit` call: new sha, or failure. -/
  commitResult : Except String String
  /-- `git.push('origin', branch)`, per branch. -/
  pushResult : String → Except String Unit
  /-- `githubService.createComment`, per comment body. -/
  createCommentResult : String → Except String Unit
  /-- `Date.now()` at `createFixBranch`. -/
  nowMs : Nat

/-- The markdown body built by `CommentProcessor.addAnalysisComment`
(commentProcessor.ts lines 163-174); `changesLines` is the
`analysis.changes.map(...).join('\n')` fragment. -/
def changesLines (cs : List CodeChange) : String :=
  String.intercalate "\n" (cs.map (fun c => "- " ++ c.filename ++ ": " ++ c.description))

/-- Body of the analysis (not-applied) comment. -/
def analysisMessage (a : AIAnalysisResult) : String :=
  "**AI Analysis**\n\n**Decision:** " ++
  (if a.shouldApply then "Will apply" else "Will not apply") ++
  "\n\n**Reasoning:** " ++ a.reasoning ++
  "\n\n**Confidence:** " ++ intStr (roundPercent a.confidence) ++ "%\n\n" ++
  (if a.changes.length > 0 then "**Proposed Changes:**\n" ++ changesLines a.changes else "") ++
  "\n\n---\n*This analysis was performed by the AI Comment Fixer Bot*"

/-- Body of the success comment built by `addSuccessComment`
(commentProcessor.ts lines 196-212). -/
def successMessage (summary : String) (a : AIAnalysisResult)
    (fixBranch baseRef : String) : String :=
  "**Changes Applied Successfully**\n\n" ++ summary ++
  "\n\n**Branch:** `" ++ fixBranch ++
  "`\n**Confidence:** " ++ intStr (roundPercent a.confidence) ++ "%\n\n**Changes Made:**\n" ++
  changesLines a.changes ++
  "\n\n**Next Steps:**\n1. Review the changes in the new branch\n2. Create a new PR from `" ++
  fixBranch ++ "` to `" ++ baseRef ++
  "`\n3. Or merge the changes directly if approved\n\n---\n*Applied by AI Comment Fixer Bot*"

/-- Body of the error comment built by `handleError`
(commentProcessor.ts lines 230-243).  All modelled failures are `Error`
instances carrying a message, so the `Error Type` line reads `Error`. -/
def errorMessage (errMsg : String) : String :=
  "**Error Processing Comment**\n\nAn error occurred while processing this comment:\n\n```\n" ++
  errMsg ++
  "\n```\n\n**Error Type:** Error\n\nPlease check the bot logs for more details or try again later.\n\n---\n*AI Comment Fixer Bot*"

/-- The per-file content loop of `CommentProcessor.analyzeComment`
(commentProcessor.ts lines 84-98): fetch each file's content, substituting
the placeholder on failure and continuing. -/
def fetchContents (env : Env) : List GitHubFile → List Eff × List (String × String)
  | [] => ([], [])
  | f :: rest =>
    let tail := fetchContents env rest
    match env.contentResult f.filename with
    | .ok c => (.fetchContent f.filename :: tail.1, (f.filename, c) :: tail.2)
    | .error _ =>
      (.fetchContent f.filename :: tail.1, (f.filename, "File content not available") :: tail.2)

/-- `CommentProcessor.analyzeComment` (commentProcessor.ts lines 69-102):
fetch the PR file list (a throw propagates), fetch contents with the
placeholder fallback, then ask the AI (which never throws). -/
def analyzeCommentProc (env : Env) : List Eff × Except String AIAnalysisResult :=
  match env.filesResult with
  | .error e => ([.fetchFiles], .error e)
  | .ok files =>
    let fc := fetchContents env files
    (.fetchFiles :: fc.1 ++ [.aiAnalyze], .ok (OpenAIService.analyzeComment env.aiApiResult))

/-- The write loop of `GitService.applyChanges` as performed by the
pipeline: one `fs.writeFileSync` per change, a throw stopping the loop. -/
def applyWrites (env : Env) : List CodeChange → List Eff × Except String Unit
  | [] => ([], .ok ())
  | c :: rest =>
    match env.writeResult c.filename with
    | .error e => ([], .error e)
    | .ok _ =>
      let tail := applyWrites env rest
      (.fileWrite c.filename c.content :: tail.1, tail.2)

/-- The tail of `CommentProcessor.applyChanges` (commentProcessor.ts
lines 107-152) after the file writes succeeded: stage, commit, push, then
post the success comment.  `wevs` is the trace of the completed writes. -/
def applyAfterWrites (env : Env) (comment : GitHubComment) (pr : GitHubPR)
    (a : AIAnalysisResult) (wevs : List Eff) : List Eff × Except String Unit :=
  match env.addResult with
  | .error e =>
    ([Eff.gitSetup, .gitCheckout pr.baseRef, .gitPull,
      .gitCreateBranch (GitService.createFixBranch pr.baseRef pr.number env.nowMs)] ++ wevs,
     .error e)
  | .ok _ =>
  match GitService.commitChanges pr.number comment.id a.changes env.statusResult
      env.commitResult with
  | .error e =>
    ([Eff.gitSetup, .gitCheckout pr.baseRef, .gitPull,
      .gitCreateBranch (GitService.createFixBranch pr.baseRef pr.number env.nowMs)] ++ wevs ++
      [Eff.gitAdd (a.changes.map (·.filename))],
     .error e)
  | .ok _sha =>
  match env.pushResult (GitService.createFixBranch pr.baseRef pr.number env.nowMs) with
  | .error e =>
    ([Eff.gitSetup, .gitCheckout pr.baseRef, .gitPull,
      .gitCreateBranch (GitService.createFixBranch pr.baseRef pr.number env.nowMs)] ++ wevs ++
      [Eff.gitAdd (a.changes.map (·.filename)), Eff.gitCommit],
     .error e)
  | .ok _ =>
  match env.createCommentResult (successMessage
      (OpenAIService.generateChangeSummary env.summaryApiResult) a
      (GitService.createFixBranch pr.baseRef pr.number env.nowMs) pr.baseRef) with
  | .error e =>
    ([Eff.gitSetup, .gitCheckout pr.baseRef, .gitPull,
      .gitCreateBranch (GitService.createFixBranch pr.baseRef pr.number env.nowMs)] ++ wevs ++
      [Eff.gitAdd (a.changes.map (·.filename)), Eff.gitCommit,
       Eff.gitPush (GitService.createFixBranch pr.baseRef pr.number env.nowMs)],
     .error e)
  | .ok _ =>
    ([Eff.gitSetup, .gitCheckout pr.baseRef, .gitPull,
      .gitCreateBranch (GitService.createFixBranch pr.baseRef pr.number env.nowMs)] ++ wevs ++
      [Eff.gitAdd (a.changes.map (·.filename)), Eff.gitCommit,
       Eff.gitPush (GitService.createFixBranch pr.baseRef pr.number env.nowMs),
       Eff.postComment .success (successMessage
         (OpenAIService.generateChangeSummary env.summaryApiResult) a
         (GitService.createFixBranch pr.baseRef pr.number env.nowMs) pr.baseRef)],
     .ok ())

/-- `CommentProcessor.applyChanges` (commentProcessor.ts lines 107-152):
setup → create fix branch → write files → commit → push → success comment.
Any throw is rethrown to `processComment` (`.error`). -/
def applyChangesProc (env : Env) (comment : GitHubComment) (pr : GitHubPR)
    (a : AIAnalysisResult) : List Eff × Except String Unit :=
  match env.setupResult with
  | .error e => ([], .error e)
  | .ok _ =>
  match env.checkoutResult pr.baseRef with
  | .error e => ([.gitSetup], .error e)
  | .ok _ =>
  match env.pullResult with
  | .error e => ([.gitSetup, .gitCheckout pr.baseRef], .error e)
  | .ok _ =>
  match env.checkoutLocalResult (GitService.createFixBranch pr.baseRef pr.number env.nowMs) with
  | .error e => ([.gitSetup, .gitCheckout pr.baseRef, .gitPull], .error e)
  | .ok _ =>
  match applyWrites env a.changes with
  | (wevs, .error e) =>
    ([Eff.gitSetup, .gitCheckout pr.baseRef, .gitPull,
      .gitCreateBranch (GitService.createFixBranch pr.baseRef pr.number env.nowMs)] ++ wevs,
     .error e)
  | (wevs, .ok _) => applyAfterWrites env comment pr a wevs

/-- `CommentProcessor.handleError` (commentProcessor.ts lines 225-255):
post an error comment when the payload still carries a comment and a PR;
a failure of that post is itself swallowed. -/
def handleError (env : Env) (payload : GitHubWebhookPayload) (e : String) : List Eff :=
  match payload.comment, payload.pull_request with
  | some _, some _ =>
    match env.createCommentResult (errorMessage e) with
    | .ok _ => [.postComment .error (errorMessage e)]
    | .error _ => []
  | _, _ => []

/-- `CommentProcessor.processComment` (commentProcessor.ts lines 28-64):
guard missing comment/PR, skip the bot's own comments (compared against
the hardcoded string), analyze, then either post the analysis comment or
apply; any throw is routed to `handleError`. -/
def processComment (env : Env) (payload : GitHubWebhookPayload) : List Eff :=
  match payload.comment, payload.pull_request with
  | some comment, some pr =>
    if comment.userLogin = "AI Comment Fixer Bot" then []
    else
      match analyzeCommentProc env with
      | (evs, .error e) => evs ++ handleError env payload e
      | (evs, .ok a) =>
        if a.shouldApply then
          match applyChangesProc env comment pr a with
          | (evs2, .ok _) => evs ++ evs2
          | (evs2, .error e) => evs ++ evs2 ++ handleError env payload e
        else
          match env.createCommentResult (analysisMessage a) with
          | .ok _ => evs ++ [.postComment .analysis (analysisMessage a)]
          | .error e => evs ++ handleError env payload e
  | _, _ => []

/-- `handleCommentEvent` (index.ts lines 72-93): drop events whose action
is not `created` or that carry no pull request, then dispatch to
`processComment`. -/
def handleCommentEvent (env : Env) (payload : GitHubWebhookPayload) : List Eff :=
  if payload.action = "created" then
    match payload.pull_request with
    | none => []
    | some _ => processComment env payload
  else []

/-- Whether an effect is a posted PR comment. -/
def isPost : Eff → Bool
  | .postComment _ _ => true
  | _ => false

/-- Whether an effect is a posted success comment. -/
def isSuccessPost : Eff → Bool
  | .postComment .success _ => true
  | _ => false

/-- Whether an effect is a `GitService` operation or a working-copy write. -/
def isGitEff : Eff → Bool
  | .gitSetup => true
  | .gitCheckout _ => true
  | .gitPull => true
  | .gitCreateBranch _ => true
  | .fileWrite _ _ => true
  | .gitAdd _ => true
  | .gitCommit => true
  | .gitPush _ => true
  | _ => false

/-- Whether an effect is a `git push`. -/
def isPushEff : Eff → Bool
  | .gitPush _ => true
  | _ => false

/-- Whether an effect is a `git commit`. -/
def isCommitEff : Eff → Bool
  | .gitCommit => true
  | _ => false

/-- Whether an effect is a fix-branch creation. -/
def isBranchEff : Eff → Bool
  | .gitCreateBranch _ => true
  | _ => false

/-- Number of PR comments posted in a trace. -/
def countPosts (tr : List Eff) : Nat := (tr.filter isPost).length

/-- `noSuccessBefore p tr`: scanning the trace in order, a `p`-event
occurs before the first success comment (or no success comment exists). -/
def noSuccessBefore (p : Eff → Bool) : List Eff → Bool
  | [] => true
  | e :: rest => if p e then true else if isSuccessPost e then false else noSuccessBefore p rest

/-- Every posted comment sits at the final position of the trace (nothing
is posted optimistically before the remaining operations finish). -/
def postsOnlyLast (tr : List Eff) : Bool := tr.dropLast.all (fun e => !isPost e)

/-- Whether an effect belongs to the analysis/fetch stage. -/
def isFetchEff : Eff → Bool
  | .fetchFiles => true
  | .fetchContent _ => true
  | .aiAnalyze => true
  | _ => false

/-- Content of the last write to file `x` in a change list (the
map-semantics of `GitService.applyChanges`, last writer wins). -/
def writeLast : List CodeChange → String → Option String
  | [], _ => none
  | c :: rest, x =>
    match writeLast rest x with
    | some y => some y
    | none => if c.filename = x then some c.content else none

/-- Filenames of a filesystem model. -/
def fsKeys (fs : List (String × String)) : List String := fs.map Prod.fst

/-- Spec-side predicate (from §8 of the spec): a nonempty digit string
with no leading zero, i.e. the decimal form of a positive integer. -/
def posIntDigits (l : List Char) : Bool :=
  !l.isEmpty && l.all (·.isDigit) && l.headD 'x' != '0'

/-- Spec-side: after `fix/pr-`, a positive integer, a dash, and a second
positive integer filling the rest of the name. -/
def fixTail (rest : List Char) : Bool :=
  match rest.drop (rest.takeWhile (·.isDigit)).length with
  | '-' :: b => posIntDigits (rest.takeWhile (·.isDigit)) && posIntDigits b
  | _ => false

/-- Spec-side predicate (from §8 of the spec): the branch-name shape
`fix/pr-<positive integer>-<positive integer>`. -/
def fixBranchPattern (s : String) : Bool :=
  s.data.take 7 == "fix/pr-".data && fixTail (s.data.drop 7)

/-- A configuration/environment in which every external call succeeds,
the AI service is unreachable, and `GIT_USER_NAME` is `fixer-bot`. -/
def baseEnv : Env where
  botUserName := "fixer-bot"
  filesResult := .ok []
  contentResult := fun _ => .ok ""
  aiApiResult := .error "OpenAI unreachable"
  summaryApiResult := .ok none
  setupResult := .ok ()
  checkoutResult := fun _ => .ok ()
  pullResult := .ok ()
  checkoutLocalResult := fun _ => .ok ()
  writeResult := fun _ => .ok ()
  addResult := .ok ()
  statusResult := { modified := [], created := [] }
  commitResult := .ok "abc123"
  pushResult := fun _ => .ok ()
  createCommentResult := fun _ => .ok ()
  nowMs := 1700000000000

/-- A sample pull request on base branch `main`. -/
def samplePR : GitHubPR :=
  { number := 5, title := "Title", body := "Body", headRef := "feature", headSha := "h1"
    baseRef := "main", baseSha := "b1", state := "open", mergeable := true }

/-- Repository identity used by the sample payloads. -/
def sampleRepo : Repository :=
  { full_name := "acme/widgets", name := "widgets", ownerLogin := "acme" }

/-- A comment authored by the configured bot identity (`fixer-bot`,
which differs from the hardcoded string the code compares against). -/
def botAuthoredComment : GitHubComment :=
  { id := 11, body := "also fix this", userLogin := "fixer-bot"
    created_at := "t", updated_at := "t" }

/-- A comment authored by an ordinary reviewer. -/
def userComment : GitHubComment :=
  { id := 12, body := "please fix the typo", userLogin := "reviewer42"
    created_at := "t", updated_at := "t" }

/-- A `created` PR-comment payload whose author is the configured
bot identity. -/
def c3Payload : GitHubWebhookPayload :=
  { action := "created", comment := some botAuthoredComment
    pull_request := some samplePR, repository := sampleRepo, senderLogin := "fixer-bot" }

/-- A `created` PR-comment payload from an ordinary reviewer. -/
def okPayload : GitHubWebhookPayload :=
  { action := "created", comment := some userComment
    pull_request := some samplePR, repository := sampleRepo, senderLogin := "reviewer42" }

/-- An environment in which fetching the PR file list fails with an HTTP
error (a `RemoteAPIError` in the fetch stage). -/
def filesFailEnv : Env := { baseEnv with filesResult := .error "GitHub API error 500" }

/-- An environment in which posting a PR comment always fails. -/
def postFailEnv : Env :=
  { baseEnv with createCommentResult := fun _ => .error "GitHub API error 502" }

/-- A sample changed file in the PR. -/
def sampleFile : GitHubFile :=
  { filename := "src/a.ts", status := "modified", additions := 1, deletions := 1
    changes := 2, patch := none }

/-- An environment in which the PR has one file whose raw-content fetch
fails with an HTTP error. -/
def contentFailEnv : Env :=
  { baseEnv with filesResult := .ok [sampleFile], contentResult := fun _ => .error "HTTP 404" }

/-- A model reply whose required fields are all valid but whose change
carries a wrongly-typed `lineNumber` (a string). -/
def badLineNumberChange : Json :=
  .obj [("filename", .str "a.ts"), ("content", .str "x"),
        ("description", .str "d"), ("lineNumber", .str "twelve")]

/-- The full model reply containing `badLineNumberChange`, with
`shouldApply = true`. -/
def badLineNumberReply : Json :=
  .obj [("shouldApply", .bool true), ("confidence", .num (mkRat 9 10)),
        ("reasoning", .str "clear fix"), ("changes", .arr [badLineNumberChange])]

/-- A model reply with a wrongly-typed `shouldApply` field. -/
def badShouldApplyReply : Json := .obj [("shouldApply", .str "yes")]

/-- A well-formed approving model reply with one proposed change. -/
def goodReply : Json :=
  .obj [("shouldApply", .bool true), ("confidence", .num (mkRat 19 20)),
        ("reasoning", .str "typo"),
        ("changes", .arr [.obj [("filename", .str "src/a.ts"),
          ("content", .str "receive"), ("description", .str "fix typo")]])]

/-- A repository status with one modified file. -/
def goodStatus : GitService.StatusResult := { modified := ["src/a.ts"], created := [] }

/-- An environment in which the AI approves `goodReply` and the working
copy registers the resulting modification. -/
def applyEnv : Env :=
  { baseEnv with aiApiResult := .ok (some (.ok goodReply)), statusResult := goodStatus }

example : GitService.createFixBranch "main" 42 123 = "fix/pr-42-123" := rfl
example : verifyWebhookSignatureStr sampleDigest "sha256=abc" =
    .error "Input buffers must have the same byte length" := rfl
example : verifyWebhookSignatureBuf sampleDigest "sha256=abc" = false := rfl
example : verifyWebhookSignatureBuf sampleDigest ("sha256=" ++ sampleDigest) = true := rfl

/-! ### Helper lemmas: decimal digit strings -/

lemma isDigit_ofNat48 (d : Nat) (hd : d < 10) : (Char.ofNat (48 + d)).isDigit = true := by
  interval_cases d <;> decide

lemma ofNat48_ne_zero (d : Nat) (hd : d < 10) (hp : 0 < d) : Char.ofNat (48 + d) ≠ '0' := by
  interval_cases d <;> simp_all

lemma headD_append_of_ne_nil {α : Type} (xs ys : List α) (d : α) (h : xs ≠ []) :
    (xs ++ ys).headD d = xs.headD d := by
  cases xs with
  | nil => exact absurd rfl h
  | cons a l => rfl

lemma natDigitsAux_ne_nil (fuel n : Nat) (h : n < fuel) : natDigitsAux fuel n ≠ [] := by
  cases fuel with
  | zero => omega
  | succ f =>
    simp only [natDigitsAux]
    split
    · simp
    · simp

lemma natDigitsAux_all_digit :
    ∀ fuel n, n < fuel → (natDigitsAux fuel n).all (·.isDigit) = true := by
  intro fuel
  induction fuel with
  | zero => intro n h; omega
  | succ f ih =>
    intro n h
    simp only [natDigitsAux]
    split
    · next h10 => simp [isDigit_ofNat48 n h10]
    · next h10 =>
      have hlt : n / 10 < f := by omega
      have hmod : n % 10 < 10 := by omega
      simp [ih (n / 10) hlt, isDigit_ofNat48 (n % 10) hmod]

lemma natDigitsAux_headD :
    ∀ fuel n, n < fuel → 0 < n → (natDigitsAux fuel n).headD 'x' ≠ '0' := by
  intro fuel
  induction fuel with
  | zero => intro n h; omega
  | succ f ih =>
    intro n h hp
    simp only [natDigitsAux]
    split
    · next h10 => simpa using ofNat48_ne_zero n h10 hp
    · next h10 =>
      have hlt : n / 10 < f := by omega
      have hpos : 0 < n / 10 := by omega
      rw [headD_append_of_ne_nil _ _ _ (natDigitsAux_ne_nil f (n / 10) hlt)]
      exact ih (n / 10) hlt hpos

lemma natDigits_ne_nil (n : Nat) : natDigits n ≠ [] :=
  natDigitsAux_ne_nil (n + 1) n (Nat.lt_succ_self n)

lemma natDigits_all_digit (n : Nat) : (natDigits n).all (·.isDigit) = true :=
  natDigitsAux_all_digit (n + 1) n (Nat.lt_succ_self n)

lemma natDigits_headD (n : Nat) (h : 0 < n) : (natDigits n).headD 'x' ≠ '0' :=
  natDigitsAux_headD (n + 1) n (Nat.lt_succ_self n) h

lemma posIntDigits_natDigits (n : Nat) (h : 0 < n) : posIntDigits (natDigits n) = true := by
  have h1 := natDigits_ne_nil n
  have h2 := natDigits_all_digit n
  have h3 := natDigits_headD n h
  unfold posIntDigits
  cases hd : natDigits n with
  | nil => exact absurd hd h1
  | cons a l =>
    rw [hd] at h2 h3
    simp_all

lemma takeWhile_all_append {p : Char → Bool} :
    ∀ (xs : List Char), xs.all p = true → ∀ (y : Char), p y = false →
      ∀ (ys : List Char), (xs ++ y :: ys).takeWhile p = xs := by
  intro xs
  induction xs with
  | nil => intro _ y hy ys; simp [List.takeWhile_cons, hy]
  | cons x l ih =>
    intro hall y hy ys
    simp only [List.all_cons, Bool.and_eq_true] at hall
    simp [List.takeWhile_cons, hall.1, ih hall.2 y hy ys]

lemma createFixBranch_data (b : String) (p t : Nat) :
    (GitService.createFixBranch b p t).data =
      "fix/pr-".data ++ (natDigits p ++ ('-' :: natDigits t)) := by
  show ("fix/pr-" ++ natStr p ++ "-" ++ natStr t).data = _
  simp only [String.data_append, List.append_assoc]
  rfl

lemma isPrefixOf_fix (rest : List Char) :
    "fix/".data.isPrefixOf ('f' :: 'i' :: 'x' :: '/' :: rest) = true := by
  show List.isPrefixOf ['f', 'i', 'x', '/'] _ = true
  simp [List.isPrefixOf]

/-- C8 (counterexample): when the base branch itself is named
`fix/pr-7-99`, `createFixBranch` for PR 7 at epoch-millisecond 99 returns
exactly the base branch name, so "never equal to the base branch name"
fails as stated. -/
theorem c8_counterexample :
    GitService.createFixBranch "fix/pr-7-99" 7 99 = "fix/pr-7-99" := rfl

/-- C8 (amended): for a positive PR number and positive epoch timestamp,
`createFixBranch` returns a name matching
`fix/pr-<positive integer>-<positive integer>`, and the name differs from
the base branch whenever the base branch does not itself start with
`fix/` (the unamended universal inequality fails, see the
counterexample). -/
theorem c8_branch_name (baseBranch : String) (p t : Nat) (hp : 0 < p) (ht : 0 < t) :
    fixBranchPattern (GitService.createFixBranch baseBranch p t) = true ∧
    (strStartsWith baseBranch "fix/" = false →
      GitService.createFixBranch baseBranch p t ≠ baseBranch) := by
  constructor
  · unfold fixBranchPattern fixTail
    rw [createFixBranch_data]
    rw [show (7 : Nat) = ("fix/pr-".data).length from rfl]
    rw [List.take_left, List.drop_left]
    rw [takeWhile_all_append (natDigits p) (natDigits_all_digit p) '-' (by decide) (natDigits t)]
    rw [List.drop_left]
    simp [posIntDigits_natDigits p hp, posIntDigits_natDigits t ht]
  · intro hfix hEq
    have h2 : strStartsWith (GitService.createFixBranch baseBranch p t) "fix/" = true := by
      unfold strStartsWith
      rw [createFixBranch_data]
      exact isPrefixOf_fix _
    rw [hEq, hfix] at h2
    exact Bool.false_ne_true h2

/-- C8 witness: the amended statement at `baseBranch = main`, PR 42,
timestamp 1700000000000. -/
theorem c8_branch_name_witness :
    (0 < 42 ∧ 0 < 1700000000000) ∧
    (fixBranchPattern (GitService.createFixBranch "main" 42 1700000000000) = true ∧
     (strStartsWith "main" "fix/" = false →
       GitService.createFixBranch "main" 42 1700000000000 ≠ "main")) :=
  ⟨⟨by decide, by decide⟩, c8_branch_name "main" 42 1700000000000 (by decide) (by decide)⟩

/-! ### Helper lemmas: shape of the Fix-Decision Engine output -/

lemma parseCore_ok_bounds {j : Json} {r : AIAnalysisResult}
    (h : OpenAIService.parseAIResponseCore j = .ok r) :
    0 ≤ r.confidence ∧ r.confidence ≤ 1 := by
  unfold OpenAIService.parseAIResponseCore at h
  repeat' split at h
  any_goals exact Except.noConfusion h
  rename_i x4 b heq4 x3 q heq3 hguard x2 d heq2 x1 l heq1 x cs heq
  injection h with h2
  subst h2
  push_neg at hguard
  exact ⟨hguard.1, hguard.2⟩

lemma analyzeComment_shape (apiOutcome : Except String (Option (Except String Json))) :
    ((OpenAIService.analyzeComment apiOutcome).shouldApply = false ∧
     (OpenAIService.analyzeComment apiOutcome).changes = [] ∧
     (OpenAIService.analyzeComment apiOutcome).confidence = 0) ∨
    (∃ j r, apiOutcome = .ok (some (.ok j)) ∧
      OpenAIService.parseAIResponseCore j = .ok r ∧
      OpenAIService.analyzeComment apiOutcome = r) := by
  match apiOutcome with
  | .error e => exact Or.inl ⟨rfl, rfl, rfl⟩
  | .ok none => exact Or.inl ⟨rfl, rfl, rfl⟩
  | .ok (some (.error e)) => exact Or.inl ⟨rfl, rfl, rfl⟩
  | .ok (some (.ok j)) =>
    cases hc : OpenAIService.parseAIResponseCore j with
    | ok r =>
      refine Or.inr ⟨j, r, rfl, hc, ?_⟩
      simp [OpenAIService.analyzeComment, OpenAIService.parseAIResponse, hc]
    | error e =>
      refine Or.inl ?_
      simp [OpenAIService.analyzeComment, OpenAIService.parseAIResponse, hc,
        OpenAIService.parseFailure]

/-- C9: every `AIAnalysisResult` the Fix-Decision Engine can produce has
`0 ≤ confidence ≤ 1`: a successfully validated reply passed the explicit
bound check, and every failure path returns confidence 0. -/
theorem c9_confidence_invariant (apiOutcome : Except String (Option (Except String Json))) :
    0 ≤ (OpenAIService.analyzeComment apiOutcome).confidence ∧
    (OpenAIService.analyzeComment apiOutcome).confidence ≤ 1 := by
  rcases analyzeComment_shape apiOutcome with ⟨_, _, h0⟩ | ⟨j, r, _, hc, hr⟩
  · rw [h0]; exact ⟨le_refl 0, by norm_num⟩
  · rw [hr]; exact parseCore_ok_bounds hc

/-- C1 (amended): `analyzeComment` never raises (it is a total function of
the modelled call outcome) and converts every transport failure, missing
reply content, JSON extraction/parse failure, and every failed *checked*
validation (shouldApply/confidence/reasoning/changes and each change's
filename/content/description) into the safe default verdict
(`shouldApply = false`, empty changes, confidence 0, reasoning describing
the failure); every output is either such a safe default or a fully
validated parse.  The optional `lineNumber` field, however, is copied
through without a type check (see the counterexample), so "any field of
the wrong type" must exclude `lineNumber`. -/
theorem c1_safe_default_amended :
    (∀ e, OpenAIService.analyzeComment (.error e) = OpenAIService.analysisFailure e) ∧
    (OpenAIService.analyzeComment (.ok none) =
      OpenAIService.analysisFailure "No response from OpenAI") ∧
    (∀ e, OpenAIService.analyzeComment (.ok (some (.error e))) =
      OpenAIService.parseFailure e) ∧
    (∀ j e, OpenAIService.parseAIResponseCore j = .error e →
      OpenAIService.analyzeComment (.ok (some (.ok j))) = OpenAIService.parseFailure e) ∧
    (∀ apiOutcome,
      ((OpenAIService.analyzeComment apiOutcome).shouldApply = false ∧
       (OpenAIService.analyzeComment apiOutcome).changes = [] ∧
       (OpenAIService.analyzeComment apiOutcome).confidence = 0) ∨
      (∃ j r, apiOutcome = .ok (some (.ok j)) ∧
        OpenAIService.parseAIResponseCore j = .ok r ∧
        OpenAIService.analyzeComment apiOutcome = r)) := by
  refine ⟨fun e => rfl, rfl, fun e => rfl, ?_, analyzeComment_shape⟩
  intro j e hc
  simp [OpenAIService.analyzeComment, OpenAIService.parseAIResponse, hc]

/-- C1 witness: a reply whose `shouldApply` is a string is downgraded to
the safe default with the corresponding reasoning. -/
theorem c1_witness :
    (OpenAIService.parseAIResponseCore badShouldApplyReply =
      .error "Invalid shouldApply field") ∧
    OpenAIService.analyzeComment (.ok (some (.ok badShouldApplyReply))) =
      OpenAIService.parseFailure "Invalid shouldApply field" :=
  ⟨rfl, c1_safe_default_amended.2.2.2.1 badShouldApplyReply _ rfl⟩

/-- C1 (counterexample): a reply whose change carries a *string*
`lineNumber` — a field of the wrong type — is **not** downgraded to the
safe default: `analyzeComment` returns it with `shouldApply = true` and a
non-empty change list, refuting the claim as stated. -/
theorem c1_counterexample :
    Json.lookup badLineNumberChange "lineNumber" = some (.str "twelve") ∧
    (OpenAIService.analyzeComment (.ok (some (.ok badLineNumberReply)))).shouldApply = true ∧
    (OpenAIService.analyzeComment (.ok (some (.ok badLineNumberReply)))).changes.length = 1 :=
  ⟨rfl, rfl, rfl⟩

/-- C2: evaluation at the failing input.  The string-payload
`verifyWebhookSignature` (git.ts lines 352-362), the one called from the
webhook route, lets `crypto.timingSafeEqual` throw when the signature
header's byte length differs from the expected 71 (`sha256=` plus 64 hex
chars) instead of returning false — here at signature `sha256=abc`.  The
Buffer-payload variant (git.ts lines 223-244) catches the same throw and
returns false, which is the behavior the spec states. -/
theorem c2_signature_length_throws :
    verifyWebhookSignatureStr sampleDigest "sha256=abc" =
      .error "Input buffers must have the same byte length" ∧
    verifyWebhookSignatureBuf sampleDigest "sha256=abc" = false :=
  ⟨rfl, rfl⟩

/-! ### Helper lemmas: the filesystem model and `git status` -/

lemma lookupFs_fsWrite (fs : List (String × String)) (fn c x : String) :
    GitService.lookupFs (GitService.fsWrite fs fn c) x =
      if fn = x then some c else GitService.lookupFs fs x := by
  induction fs with
  | nil => simp [GitService.fsWrite, GitService.lookupFs]
  | cons p rest ih =>
    by_cases hp : p.1 = fn
    · simp only [GitService.fsWrite, if_pos hp, GitService.lookupFs]
      by_cases hx : fn = x
      · simp [hx]
      · have hpx : ¬ p.1 = x := fun h => hx (hp.symm.trans h)
        simp [hx, GitService.lookupFs, hpx]
    · simp only [GitService.fsWrite, if_neg hp, GitService.lookupFs]
      by_cases hx : p.1 = x
      · have : ¬ fn = x := fun h => hp (h ▸ hx)
        simp [hx, this]
      · simp [hx, ih]

lemma applyChanges_cons (fs : List (String × String)) (c : CodeChange) (rest : List CodeChange) :
    GitService.applyChanges fs (c :: rest) =
      GitService.applyChanges (GitService.fsWrite fs c.filename c.content) rest := rfl

lemma lookupFs_applyChanges :
    ∀ (cs : List CodeChange) (fs : List (String × String)) (x : String),
      GitService.lookupFs (GitService.applyChanges fs cs) x =
        match writeLast cs x with
        | some c => some c
        | none => GitService.lookupFs fs x := by
  intro cs
  induction cs with
  | nil => intro fs x; rfl
  | cons c rest ih =>
    intro fs x
    rw [applyChanges_cons, ih]
    cases hw : writeLast rest x with
    | some y => simp [writeLast, hw]
    | none =>
      simp only [writeLast, hw, lookupFs_fsWrite]
      by_cases hx : c.filename = x
      · simp [hx]
      · simp [hx]

lemma mem_fsKeys_fsWrite {x fn c : String} :
    ∀ {fs : List (String × String)},
      x ∈ fsKeys (GitService.fsWrite fs fn c) → x = fn ∨ x ∈ fsKeys fs := by
  intro fs
  induction fs with
  | nil => intro h; simp [GitService.fsWrite, fsKeys] at h; exact Or.inl h
  | cons p rest ih =>
    intro h
    by_cases hp : p.1 = fn
    · simp only [GitService.fsWrite, if_pos hp, fsKeys, List.map_cons, List.mem_cons] at h ⊢
      rcases h with h | h
      · exact Or.inl h
      · exact Or.inr (Or.inr h)
    · simp only [GitService.fsWrite, if_neg hp, fsKeys, List.map_cons, List.mem_cons] at h ⊢
      rcases h with h | h
      · exact Or.inr (Or.inl h)
      · rcases ih h with h2 | h2
        · exact Or.inl h2
        · exact Or.inr (Or.inr h2)

lemma nodup_fsKeys_fsWrite {fn c : String} :
    ∀ {fs : List (String × String)},
      (fsKeys fs).Nodup → (fsKeys (GitService.fsWrite fs fn c)).Nodup := by
  intro fs
  induction fs with
  | nil => intro _; simp [GitService.fsWrite, fsKeys]
  | cons p rest ih =>
    intro hnd
    simp only [fsKeys, List.map_cons, List.nodup_cons] at hnd
    by_cases hp : p.1 = fn
    · simp only [GitService.fsWrite, if_pos hp, fsKeys, List.map_cons, List.nodup_cons]
      exact ⟨hp ▸ hnd.1, hnd.2⟩
    · simp only [GitService.fsWrite, if_neg hp, fsKeys, List.map_cons, List.nodup_cons]
      refine ⟨fun hmem => ?_, ih hnd.2⟩
      rcases mem_fsKeys_fsWrite hmem with h2 | h2
      · exact hp h2
      · exact hnd.1 h2

lemma nodup_fsKeys_applyChanges :
    ∀ (cs : List CodeChange) {fs : List (String × String)},
      (fsKeys fs).Nodup → (fsKeys (GitService.applyChanges fs cs)).Nodup := by
  intro cs
  induction cs with
  | nil => intro fs h; exact h
  | cons c rest ih =>
    intro fs h
    rw [applyChanges_cons]
    exact ih (nodup_fsKeys_fsWrite h)

lemma lookupFs_of_mem :
    ∀ {fs : List (String × String)} {fn ct : String},
      (fsKeys fs).Nodup → (fn, ct) ∈ fs → GitService.lookupFs fs fn = some ct := by
  intro fs
  induction fs with
  | nil => intro fn ct _ hm; exact absurd hm (List.not_mem_nil _)
  | cons p rest ih =>
    intro fn ct hnd hm
    simp only [fsKeys, List.map_cons, List.nodup_cons] at hnd
    rcases List.mem_cons.mp hm with h | h
    · rw [← h]
      simp [GitService.lookupFs]
    · have hpf : ¬ p.1 = fn := by
        intro hpf
        exact hnd.1 (hpf ▸ List.mem_map_of_mem Prod.fst h)
      simp only [GitService.lookupFs, if_neg hpf]
      exact ih hnd.2 h

lemma statusOf_second_apply (committed : List (String × String)) (cs : List CodeChange)
    (hnd : (fsKeys committed).Nodup) :
    GitService.gitStatusOf (GitService.applyChanges committed cs)
      (GitService.applyChanges (GitService.applyChanges committed cs) cs) =
      { modified := [], created := [] } := by
  have hnd1 : (fsKeys (GitService.applyChanges committed cs)).Nodup :=
    nodup_fsKeys_applyChanges cs hnd
  have hnd2 : (fsKeys (GitService.applyChanges (GitService.applyChanges committed cs) cs)).Nodup :=
    nodup_fsKeys_applyChanges cs hnd1
  have hlk : ∀ p : String × String,
      p ∈ GitService.applyChanges (GitService.applyChanges committed cs) cs →
      GitService.lookupFs (GitService.applyChanges committed cs) p.1 = some p.2 := by
    intro p hp
    have h2 : GitService.lookupFs
        (GitService.applyChanges (GitService.applyChanges committed cs) cs) p.1 = some p.2 :=
      lookupFs_of_mem hnd2 hp
    rw [lookupFs_applyChanges] at h2 ⊢
    cases hw : writeLast cs p.1 with
    | some y => rw [hw] at h2; exact h2
    | none => rw [hw] at h2; rw [lookupFs_applyChanges, hw] at h2; exact h2
  unfold GitService.gitStatusOf
  have hmod : (GitService.applyChanges (GitService.applyChanges committed cs) cs).filter
      (fun p => match GitService.lookupFs (GitService.applyChanges committed cs) p.1 with
        | some c => c != p.2
        | none => false) = [] := by
    rw [List.filter_eq_nil_iff]
    intro p hp
    rw [hlk p hp]
    simp
  have hcre : (GitService.applyChanges (GitService.applyChanges committed cs) cs).filter
      (fun p => (GitService.lookupFs (GitService.applyChanges committed cs) p.1).isNone) = [] := by
    rw [List.filter_eq_nil_iff]
    intro p hp
    rw [hlk p hp]
    simp
  rw [hmod, hcre]
  rfl

/-- C6: `commitChanges` raises its `No changes to commit` error exactly
when the repository status reports no modified and no created files; and
applying the same `ProposedChange` set a second time against a working
copy left unmodified since the first apply+commit produces exactly that
status, so the second attempt fails with `No changes to commit`. -/
theorem c6_no_changes_second_apply (prN cId : Nat) (sha : String)
    (status : GitService.StatusResult) (committed : List (String × String))
    (changes : List CodeChange) (hnd : (fsKeys committed).Nodup) :
    (GitService.commitChanges prN cId changes status (.ok sha) =
        .error "No changes to commit" ↔
      status.modified.length = 0 ∧ status.created.length = 0) ∧
    GitService.commitChanges prN cId changes
      (GitService.gitStatusOf (GitService.applyChanges committed changes)
        (GitService.applyChanges (GitService.applyChanges committed changes) changes))
      (.ok sha) = .error "No changes to commit" := by
  constructor
  · unfold GitService.commitChanges
    split
    · next hcond => simp [hcond]
    · next hcond =>
      constructor
      · intro h; exact Except.noConfusion h
      · intro h; exact absurd h hcond
  · rw [statusOf_second_apply committed changes hnd]
    unfold GitService.commitChanges
    simp

/-- C6 witness: the statement at a one-file repository and a single
proposed change. -/
theorem c6_witness :
    (fsKeys [("a.txt", "old")]).Nodup ∧
    ((GitService.commitChanges 1 2
        [{ filename := "a.txt", content := "new", lineNumber := none, description := "fix" }]
        { modified := [], created := [] } (.ok "s") = .error "No changes to commit" ↔
      ({ modified := [], created := [] } : GitService.StatusResult).modified.length = 0 ∧
      ({ modified := [], created := [] } : GitService.StatusResult).created.length = 0) ∧
     GitService.commitChanges 1 2
        [{ filename := "a.txt", content := "new", lineNumber := none, description := "fix" }]
        (GitService.gitStatusOf
          (GitService.applyChanges [("a.txt", "old")]
            [{ filename := "a.txt", content := "new", lineNumber := none, description := "fix" }])
          (GitService.applyChanges
            (GitService.applyChanges [("a.txt", "old")]
              [{ filename := "a.txt", content := "new", lineNumber := none, description := "fix" }])
            [{ filename := "a.txt", content := "new", lineNumber := none, description := "fix" }]))
        (.ok "s") = .error "No changes to commit") :=
  ⟨by decide, c6_no_changes_second_apply 1 2 "s" { modified := [], created := [] }
    [("a.txt", "old")]
    [{ filename := "a.txt", content := "new", lineNumber := none, description := "fix" }]
    (by decide)⟩

/-! ### Helper lemmas: effect traces of the pipeline -/

lemma not_post_of_fetch {e : Eff} (h : isFetchEff e = true) : isPost e = false := by
  cases e <;> simp_all [isFetchEff, isPost]

lemma not_success_of_fetch {e : Eff} (h : isFetchEff e = true) : isSuccessPost e = false := by
  cases e <;> simp_all [isFetchEff, isSuccessPost]

lemma not_git_of_fetch {e : Eff} (h : isFetchEff e = true) : isGitEff e = false := by
  cases e <;> simp_all [isFetchEff, isGitEff]

lemma fetchContents_events (env : Env) :
    ∀ (fs : List GitHubFile), (fetchContents env fs).1.all isFetchEff = true := by
  intro fs
  induction fs with
  | nil => rfl
  | cons f rest ih =>
    simp only [fetchContents]
    cases env.contentResult f.filename with
    | ok c => simpa [isFetchEff] using ih
    | error e => simpa [isFetchEff] using ih

lemma analyzeCommentProc_events (env : Env) :
    (analyzeCommentProc env).1.all isFetchEff = true := by
  unfold analyzeCommentProc
  cases env.filesResult with
  | error e => rfl
  | ok files =>
    simp only [List.all_cons, List.all_append]
    simpa [isFetchEff] using fetchContents_events env files

lemma countPosts_append (xs ys : List Eff) :
    countPosts (xs ++ ys) = countPosts xs + countPosts ys := by
  simp [countPosts, List.filter_append]

lemma countPosts_eq_zero {l : List Eff} (h : l.all (fun x => !isPost x) = true) :
    countPosts l = 0 := by
  have h2 : l.filter isPost = [] :=
    List.filter_eq_nil_iff.mpr (fun a ha => by simpa using List.all_eq_true.mp h a ha)
  simp [countPosts, h2]

lemma nsb_of_all {p : Eff → Bool} :
    ∀ {l : List Eff}, l.all (fun x => !isSuccessPost x) = true → noSuccessBefore p l = true := by
  intro l
  induction l with
  | nil => intro _; rfl
  | cons e rest ih =>
    intro h
    simp only [List.all_cons, Bool.and_eq_true] at h
    by_cases hp : p e
    · simp [noSuccessBefore, hp]
    · have : isSuccessPost e = false := by simpa using h.1
      simp [noSuccessBefore, hp, this, ih h.2]

lemma nsb_append_of_all {p : Eff → Bool} :
    ∀ {xs ys : List Eff}, xs.all (fun x => !isSuccessPost x) = true →
      noSuccessBefore p ys = true → noSuccessBefore p (xs ++ ys) = true := by
  intro xs
  induction xs with
  | nil => intro ys _ h; exact h
  | cons e rest ih =>
    intro ys h hys
    simp only [List.all_cons, Bool.and_eq_true] at h
    by_cases hp : p e
    · simp [noSuccessBefore, hp]
    · have : isSuccessPost e = false := by simpa using h.1
      simp [noSuccessBefore, hp, this]
      exact ih h.2 hys

lemma nsb_of_mem {p : Eff → Bool} :
    ∀ {xs ys : List Eff} {x : Eff}, xs.all (fun x => !isSuccessPost x) = true →
      x ∈ xs → p x = true → noSuccessBefore p (xs ++ ys) = true := by
  intro xs
  induction xs with
  | nil => intro ys x _ hm; exact absurd hm (List.not_mem_nil x)
  | cons e rest ih =>
    intro ys x h hm hp
    simp only [List.all_cons, Bool.and_eq_true] at h
    rcases List.mem_cons.mp hm with rfl | hm2
    · simp [noSuccessBefore, hp]
    · by_cases hpe : p e
      · simp [noSuccessBefore, hpe]
      · have : isSuccessPost e = false := by simpa using h.1
        simp [noSuccessBefore, hpe, this]
        exact ih h.2 hm2 hp

lemma pol_of_all {l : List Eff} (h : l.all (fun x => !isPost x) = true) :
    postsOnlyLast l = true := by
  unfold postsOnlyLast
  exact List.all_eq_true.mpr fun a ha =>
    List.all_eq_true.mp h a (List.dropLast_sublist l |>.subset ha)

lemma pol_append_singleton {l : List Eff} (e : Eff)
    (h : l.all (fun x => !isPost x) = true) : postsOnlyLast (l ++ [e]) = true := by
  unfold postsOnlyLast
  rw [List.dropLast_concat]
  exact h

lemma all_not_success_of_fetch {l : List Eff} (h : l.all isFetchEff = true) :
    l.all (fun x => !isSuccessPost x) = true :=
  List.all_eq_true.mpr fun a ha => by
    simpa using not_success_of_fetch (List.all_eq_true.mp h a ha)

lemma all_not_post_of_fetch {l : List Eff} (h : l.all isFetchEff = true) :
    l.all (fun x => !isPost x) = true :=
  List.all_eq_true.mpr fun a ha => by
    simpa using not_post_of_fetch (List.all_eq_true.mp h a ha)

lemma all_not_success_of_not_post {l : List Eff} (h : l.all (fun x => !isPost x) = true) :
    l.all (fun x => !isSuccessPost x) = true :=
  List.all_eq_true.mpr fun a ha => by
    have h2 := List.all_eq_true.mp h a ha
    cases a <;> simp_all [isPost, isSuccessPost]

lemma applyWrites_all_not_post (env : Env) :
    ∀ (cs : List CodeChange), (applyWrites env cs).1.all (fun x => !isPost x) = true := by
  intro cs
  induction cs with
  | nil => rfl
  | cons c rest ih =>
    simp only [applyWrites]
    cases env.writeResult c.filename with
    | error e => rfl
    | ok u => simpa [isPost] using ih

lemma applyAfterWrites_error {env : Env} {comment : GitHubComment} {pr : GitHubPR}
    {a : AIAnalysisResult} {wevs evs : List Eff} {e : String}
    (hwevs : wevs.all (fun x => !isPost x) = true)
    (h : applyAfterWrites env comment pr a wevs = (evs, .error e)) :
    evs.all (fun x => !isPost x) = true := by
  unfold applyAfterWrites at h
  repeat' split at h
  all_goals
    first
    | (injection h with h1 h2; subst h1; simp_all [isPost])
    | exact Except.noConfusion (congrArg Prod.snd h)

lemma applyAfterWrites_ok {env : Env} {comment : GitHubComment} {pr : GitHubPR}
    {a : AIAnalysisResult} {wevs evs : List Eff} {u : Unit}
    (hwevs : wevs.all (fun x => !isPost x) = true)
    (h : applyAfterWrites env comment pr a wevs = (evs, .ok u)) :
    ∃ pre msg, evs = pre ++ [Eff.postComment .success msg] ∧
      pre.all (fun x => !isPost x) = true ∧
      (∃ br, Eff.gitPush br ∈ pre) ∧ Eff.gitCommit ∈ pre ∧
      (∃ bn, Eff.gitCreateBranch bn ∈ pre) := by
  unfold applyAfterWrites at h
  repeat' split at h
  all_goals try exact Except.noConfusion (congrArg Prod.snd h)
  injection h with h1 h2
  subst h1
  refine ⟨[Eff.gitSetup, .gitCheckout pr.baseRef, .gitPull,
      .gitCreateBranch (GitService.createFixBranch pr.baseRef pr.number env.nowMs)] ++ wevs ++
      [Eff.gitAdd (a.changes.map (·.filename)), Eff.gitCommit,
       Eff.gitPush (GitService.createFixBranch pr.baseRef pr.number env.nowMs)],
    successMessage (OpenAIService.generateChangeSummary env.summaryApiResult) a
      (GitService.createFixBranch pr.baseRef pr.number env.nowMs) pr.baseRef,
    by simp [List.append_assoc], ?_, ?_, ?_, ?_⟩
  · simp_all [isPost]
  · exact ⟨GitService.createFixBranch pr.baseRef pr.number env.nowMs, by simp⟩
  · simp
  · exact ⟨GitService.createFixBranch pr.baseRef pr.number env.nowMs, by simp⟩

lemma applyChangesProc_error_events {env : Env} {comment : GitHubComment} {pr : GitHubPR}
    {a : AIAnalysisResult} {evs : List Eff} {e : String}
    (h : applyChangesProc env comment pr a = (evs, .error e)) :
    evs.all (fun x => !isPost x) = true := by
  have hw := applyWrites_all_not_post env a.changes
  unfold applyChangesProc at h
  repeat' split at h
  all_goals
    first
    | (injection h with h1 h2; subst h1; simp_all [isPost])
    | (rename_i wevs hw2; rw [hw2] at hw; exact applyAfterWrites_error hw h)
    | exact Except.noConfusion (congrArg Prod.snd h)

lemma applyChangesProc_ok_events {env : Env} {comment : GitHubComment} {pr : GitHubPR}
    {a : AIAnalysisResult} {evs : List Eff} {u : Unit}
    (h : applyChangesProc env comment pr a = (evs, .ok u)) :
    ∃ pre msg, evs = pre ++ [Eff.postComment .success msg] ∧
      pre.all (fun x => !isPost x) = true ∧
      (∃ br, Eff.gitPush br ∈ pre) ∧ Eff.gitCommit ∈ pre ∧
      (∃ bn, Eff.gitCreateBranch bn ∈ pre) := by
  have hw := applyWrites_all_not_post env a.changes
  unfold applyChangesProc at h
  repeat' split at h
  all_goals
    first
    | exact Except.noConfusion (congrArg Prod.snd h)
    | (rename_i wevs hw2; rw [hw2] at hw; exact applyAfterWrites_ok hw h)

lemma handleError_cases (env : Env) (payload : GitHubWebhookPayload) (e : String) :
    handleError env payload e = [] ∨
    handleError env payload e = [.postComment .error (errorMessage e)] := by
  unfold handleError
  cases payload.comment with
  | none => exact Or.inl rfl
  | some c =>
    cases payload.pull_request with
    | none => exact Or.inl rfl
    | some pr =>
      cases env.createCommentResult (errorMessage e) with
      | ok u => exact Or.inr rfl
      | error e2 => exact Or.inl rfl

lemma handleError_all_not_success (env : Env) (payload : GitHubWebhookPayload) (e : String) :
    (handleError env payload e).all (fun x => !isSuccessPost x) = true := by
  rcases handleError_cases env payload e with h | h <;> simp [h, isSuccessPost]

lemma handleError_all_not_git (env : Env) (payload : GitHubWebhookPayload) (e : String) :
    (handleError env payload e).all (fun x => !isGitEff x) = true := by
  rcases handleError_cases env payload e with h | h <;> simp [h, isGitEff]

lemma countPosts_handleError_le_one (env : Env) (payload : GitHubWebhookPayload) (e : String) :
    countPosts (handleError env payload e) ≤ 1 := by
  rcases handleError_cases env payload e with h | h <;> simp [h, countPosts, isPost]

lemma handleError_posts_ok {env : Env} {payload : GitHubWebhookPayload}
    {c : GitHubComment} {pr : GitHubPR} (e : String)
    (hc : payload.comment = some c) (hpr : payload.pull_request = some pr)
    (hok : ∀ b, env.createCommentResult b = .ok ()) :
    handleError env payload e = [.postComment .error (errorMessage e)] := by
  unfold handleError
  rw [hc, hpr]
  simp [hok (errorMessage e)]

lemma processComment_shape (env : Env) (payload : GitHubWebhookPayload) :
    ∃ evs rest, processComment env payload = evs ++ rest ∧ evs.all isFetchEff = true ∧
      (rest.all (fun x => !isPost x) = true ∨
       ∃ mid k b, rest = mid ++ [Eff.postComment k b] ∧
         mid.all (fun x => !isPost x) = true ∧
         (k = CommentKind.success →
           (∃ br, Eff.gitPush br ∈ mid) ∧ Eff.gitCommit ∈ mid ∧
           (∃ bn, Eff.gitCreateBranch bn ∈ mid))) := by
  unfold processComment
  cases hc : payload.comment with
  | none => exact ⟨[], [], rfl, rfl, Or.inl rfl⟩
  | some c =>
    cases hpr : payload.pull_request with
    | none => exact ⟨[], [], rfl, rfl, Or.inl rfl⟩
    | some pr =>
      by_cases hb : c.userLogin = "AI Comment Fixer Bot"
      · exact ⟨[], [], by simp [hb], rfl, Or.inl rfl⟩
      · simp only [if_neg hb]
        have hevs0 := analyzeCommentProc_events env
        cases hA : analyzeCommentProc env with
        | mk evs res =>
          rw [hA] at hevs0
          cases res with
          | error e =>
            rcases handleError_cases env payload e with hh | hh
            · exact ⟨evs, handleError env payload e, rfl, hevs0, Or.inl (by simp [hh, isPost])⟩
            · refine ⟨evs, handleError env payload e, rfl, hevs0,
                Or.inr ⟨[], .error, errorMessage e, by simp [hh], rfl, ?_⟩⟩
              intro hk
              exact absurd hk (by simp)
          | ok a =>
            by_cases hS : a.shouldApply
            · simp only [hS, if_true]
              cases hap : applyChangesProc env c pr a with
              | mk evs2 r2 =>
                cases r2 with
                | ok u =>
                  obtain ⟨pre, msg, hsh, hpre, hpush, hcommit, hbr⟩ :=
                    applyChangesProc_ok_events hap
                  refine ⟨evs, evs2, rfl, hevs0,
                    Or.inr ⟨pre, .success, msg, hsh, hpre, fun _ => ⟨hpush, hcommit, hbr⟩⟩⟩
                | error e =>
                  have hevs2 := applyChangesProc_error_events hap
                  rcases handleError_cases env payload e with hh | hh
                  · refine ⟨evs, evs2 ++ handleError env payload e,
                      List.append_assoc evs evs2 _, hevs0, Or.inl ?_⟩
                    simp [hh, hevs2]
                  · refine ⟨evs, evs2 ++ handleError env payload e,
                      List.append_assoc evs evs2 _, hevs0,
                      Or.inr ⟨evs2, .error, errorMessage e, by simp [hh], hevs2, ?_⟩⟩
                    intro hk
                    exact absurd hk (by simp)
            · simp only [hS, if_false]
              cases hcc : env.createCommentResult (analysisMessage a) with
              | ok u =>
                refine ⟨evs, [Eff.postComment .analysis (analysisMessage a)], rfl, hevs0,
                  Or.inr ⟨[], .analysis, analysisMessage a, rfl, rfl, ?_⟩⟩
                intro hk
                exact absurd hk (by simp)
              | error e =>
                rcases handleError_cases env payload e with hh | hh
                · exact ⟨evs, handleError env payload e, rfl, hevs0,
                    Or.inl (by simp [hh, isPost])⟩
                · refine ⟨evs, handleError env payload e, rfl, hevs0,
                    Or.inr ⟨[], .error, errorMessage e, by simp [hh], rfl, ?_⟩⟩
                  intro hk
                  exact absurd hk (by simp)

/-- C7: in every pipeline execution, a success comment appears in the
effect trace only after the push, the commit, and the fix-branch creation
have completed, and every posted comment (analysis, success, or error)
occupies the final position of the trace — nothing is posted before the
remaining operations finish or fail. -/
theorem c7_comment_ordering (env : Env) (payload : GitHubWebhookPayload) :
    noSuccessBefore isPushEff (processComment env payload) = true ∧
    noSuccessBefore isCommitEff (processComment env payload) = true ∧
    noSuccessBefore isBranchEff (processComment env payload) = true ∧
    postsOnlyLast (processComment env payload) = true := by
  obtain ⟨evs, rest, htr, hevs, hrest⟩ := processComment_shape env payload
  rw [htr]
  have hnsE : evs.all (fun x => !isSuccessPost x) = true := all_not_success_of_fetch hevs
  have hnpE : evs.all (fun x => !isPost x) = true := all_not_post_of_fetch hevs
  rcases hrest with hall | ⟨mid, k, b, hr, hmid, hk⟩
  · have hallns : rest.all (fun x => !isSuccessPost x) = true := all_not_success_of_not_post hall
    have h1 : ∀ p, noSuccessBefore p (evs ++ rest) = true := fun p =>
      nsb_append_of_all hnsE (nsb_of_all hallns)
    have hpol : postsOnlyLast (evs ++ rest) = true := by
      refine pol_of_all ?_
      rw [List.all_append]
      simp [hnpE, hall]
    exact ⟨h1 _, h1 _, h1 _, hpol⟩
  · subst hr
    have hmidns : mid.all (fun x => !isSuccessPost x) = true := all_not_success_of_not_post hmid
    have hpol : postsOnlyLast (evs ++ (mid ++ [Eff.postComment k b])) = true := by
      rw [← List.append_assoc]
      refine pol_append_singleton _ ?_
      rw [List.all_append]
      simp [hnpE, hmid]
    by_cases hks : k = CommentKind.success
    · subst hks
      obtain ⟨⟨br, hbr⟩, hcm, ⟨bn, hbn⟩⟩ := hk rfl
      refine ⟨?_, ?_, ?_, hpol⟩
      · exact nsb_append_of_all hnsE (nsb_of_mem hmidns hbr rfl)
      · exact nsb_append_of_all hnsE (nsb_of_mem hmidns hcm rfl)
      · exact nsb_append_of_all hnsE (nsb_of_mem hmidns hbn rfl)
    · have hpostns : isSuccessPost (Eff.postComment k b) = false := by
        cases k <;> simp_all [isSuccessPost]
      have hallns : (mid ++ [Eff.postComment k b]).all (fun x => !isSuccessPost x) = true := by
        rw [List.all_append]
        simp [hmidns, hpostns]
      have h1 : ∀ p, noSuccessBefore p (evs ++ (mid ++ [Eff.postComment k b])) = true := fun p =>
        nsb_append_of_all hnsE (nsb_of_all hallns)
      exact ⟨h1 _, h1 _, h1 _, hpol⟩

/-- C3 (amended): an inbound event whose action is not `created`, or that
carries no pull request, or whose comment author equals the **hardcoded**
string `AI Comment Fixer Bot` (the code never consults the configured
`GIT_USER_NAME` identity) terminates as a skip: the trace is empty, so the
Fix-Decision Engine and the Working-Copy Manager are never reached. -/
theorem c3_skip_conditions (env : Env) (payload : GitHubWebhookPayload)
    (h : payload.action ≠ "created" ∨ payload.pull_request = none ∨
      (∃ c, payload.comment = some c ∧ c.userLogin = "AI Comment Fixer Bot")) :
    handleCommentEvent env payload = [] := by
  unfold handleCommentEvent
  rcases h with h | h | ⟨c, hc, hb⟩
  · rw [if_neg h]
  · split
    · rw [h]
    · rfl
  · split
    · cases hpr : payload.pull_request with
      | none => rfl
      | some pr =>
        unfold processComment
        rw [hc, hpr]
        simp [hb]
    · rfl

/-- C3 (counterexample): a comment authored by the *configured* bot
identity (`GIT_USER_NAME = fixer-bot`) is **not** skipped — the
Fix-Decision Engine (`aiAnalyze`) is reached, because the code compares
the author only against the hardcoded string. -/
theorem c3_counterexample :
    c3Payload.comment = some botAuthoredComment ∧
    botAuthoredComment.userLogin = baseEnv.botUserName ∧
    Eff.aiAnalyze ∈ handleCommentEvent baseEnv c3Payload := ⟨rfl, rfl, by decide⟩

/-- C3 witness: an `edited` event is skipped with an empty trace. -/
theorem c3_skip_witness :
    (({ okPayload with action := "edited" } : GitHubWebhookPayload).action ≠ "created" ∨
      ({ okPayload with action := "edited" } : GitHubWebhookPayload).pull_request = none ∨
      (∃ c, ({ okPayload with action := "edited" } : GitHubWebhookPayload).comment = some c ∧
        c.userLogin = "AI Comment Fixer Bot")) ∧
    handleCommentEvent baseEnv { okPayload with action := "edited" } = [] :=
  ⟨Or.inl (by decide), c3_skip_conditions baseEnv _ (Or.inl (by decide))⟩

lemma fetchContents_snd (env : Env) :
    ∀ (files : List GitHubFile), (fetchContents env files).2 = files.map (fun f =>
      (f.filename,
        match env.contentResult f.filename with
        | .ok ct => ct
        | .error _ => "File content not available")) := by
  intro files
  induction files with
  | nil => rfl
  | cons f rest ih =>
    simp only [fetchContents, List.map_cons]
    cases env.contentResult f.filename with
    | ok c => simpa using ih
    | error e => simpa using ih

lemma aiAnalyze_mem_processComment {env : Env} {payload : GitHubWebhookPayload}
    {c : GitHubComment} {pr : GitHubPR} {files : List GitHubFile}
    (hc : payload.comment = some c) (hpr : payload.pull_request = some pr)
    (hbot : c.userLogin ≠ "AI Comment Fixer Bot")
    (hf : env.filesResult = .ok files) :
    Eff.aiAnalyze ∈ processComment env payload := by
  have hA : analyzeCommentProc env =
      (Eff.fetchFiles :: (fetchContents env files).1 ++ [Eff.aiAnalyze],
       .ok (OpenAIService.analyzeComment env.aiApiResult)) := by
    unfold analyzeCommentProc
    rw [hf]
  have hmem : Eff.aiAnalyze ∈ Eff.fetchFiles :: (fetchContents env files).1 ++ [Eff.aiAnalyze] := by
    simp
  unfold processComment
  rw [hc, hpr]
  simp only [if_neg hbot, hA]
  by_cases hS : (OpenAIService.analyzeComment env.aiApiResult).shouldApply
  · simp only [hS, if_true]
    cases hap : applyChangesProc env c pr (OpenAIService.analyzeComment env.aiApiResult) with
    | mk evs2 r2 =>
      cases r2 with
      | ok u => exact List.mem_append_left _ hmem
      | error e => exact List.mem_append_left _ (List.mem_append_left _ hmem)
  · simp only [hS, if_false]
    cases hcc : env.createCommentResult
        (analysisMessage (OpenAIService.analyzeComment env.aiApiResult)) with
    | ok u => exact List.mem_append_left _ hmem
    | error e => exact List.mem_append_left _ hmem

/-- C4 (counterexample): a `RemoteAPIError` fetching the PR *file list*
(fetch stage, before any verdict) is surfaced to the user as an error
comment — the trace posts the error comment and never reaches the
Fix-Decision Engine, refuting "surfaced only if after a verdict". -/
theorem c4_counterexample :
    processComment filesFailEnv okPayload =
      [Eff.fetchFiles, Eff.postComment .error (errorMessage "GitHub API error 500")] ∧
    Eff.aiAnalyze ∉ processComment filesFailEnv okPayload := by
  refine ⟨rfl, ?_⟩
  decide

/-- C4 (amended): a failure fetching an individual file's content does
not abort the analysis — the placeholder `File content not available` is
substituted as that file's content and the pipeline continues to the
Fix-Decision Engine; a failure fetching the PR file list, by contrast,
aborts the analysis before any verdict and is surfaced as an error
comment (see the counterexample). -/
theorem c4_fetch_failures (env : Env) (payload : GitHubWebhookPayload)
    (c : GitHubComment) (pr : GitHubPR) (files : List GitHubFile)
    (hc : payload.comment = some c) (hpr : payload.pull_request = some pr)
    (hbot : c.userLogin ≠ "AI Comment Fixer Bot")
    (hf : env.filesResult = .ok files) :
    (fetchContents env files).2 = files.map (fun f =>
      (f.filename,
        match env.contentResult f.filename with
        | .ok ct => ct
        | .error _ => "File content not available")) ∧
    Eff.aiAnalyze ∈ processComment env payload :=
  ⟨fetchContents_snd env files, aiAnalyze_mem_processComment hc hpr hbot hf⟩

lemma countPosts_le_one (env : Env) (payload : GitHubWebhookPayload) :
    countPosts (processComment env payload) ≤ 1 := by
  obtain ⟨evs, rest, htr, hevs, hrest⟩ := processComment_shape env payload
  rw [htr, countPosts_append, countPosts_eq_zero (all_not_post_of_fetch hevs), Nat.zero_add]
  rcases hrest with hall | ⟨mid, k, b, hr, hmid, hk⟩
  · rw [countPosts_eq_zero hall]
    omega
  · subst hr
    rw [countPosts_append, countPosts_eq_zero hmid, Nat.zero_add]
    simp [countPosts, isPost]

lemma applyAfterWrites_ok_post {env : Env} {comment : GitHubComment} {pr : GitHubPR}
    {a : AIAnalysisResult} {wevs evs : List Eff} {u : Unit}
    (h : applyAfterWrites env comment pr a wevs = (evs, .ok u)) :
    Eff.postComment .success (successMessage
      (OpenAIService.generateChangeSummary env.summaryApiResult) a
      (GitService.createFixBranch pr.baseRef pr.number env.nowMs) pr.baseRef) ∈ evs := by
  unfold applyAfterWrites at h
  repeat' split at h
  all_goals try exact Except.noConfusion (congrArg Prod.snd h)
  injection h with h1 h2
  subst h1
  simp

lemma applyChangesProc_ok_post {env : Env} {comment : GitHubComment} {pr : GitHubPR}
    {a : AIAnalysisResult} {evs : List Eff} {u : Unit}
    (h : applyChangesProc env comment pr a = (evs, .ok u)) :
    Eff.postComment .success (successMessage
      (OpenAIService.generateChangeSummary env.summaryApiResult) a
      (GitService.createFixBranch pr.baseRef pr.number env.nowMs) pr.baseRef) ∈ evs := by
  unfold applyChangesProc at h
  repeat' split at h
  all_goals
    first
    | exact Except.noConfusion (congrArg Prod.snd h)
    | exact applyAfterWrites_ok_post h

lemma successMessage_contains_branch (summary : String) (a : AIAnalysisResult)
    (fixBranch baseRef : String) :
    ∃ p q, successMessage summary a fixBranch baseRef = p ++ fixBranch ++ q := by
  refine ⟨"**Changes Applied Successfully**\n\n" ++ summary ++ "\n\n**Branch:** `",
    "`\n**Confidence:** " ++ intStr (roundPercent a.confidence) ++ "%\n\n**Changes Made:**\n" ++
      changesLines a.changes ++
      "\n\n**Next Steps:**\n1. Review the changes in the new branch\n2. Create a new PR from `" ++
      fixBranch ++ "` to `" ++ baseRef ++
      "`\n3. Or merge the changes directly if approved\n\n---\n*Applied by AI Comment Fixer Bot*",
    ?_⟩
  unfold successMessage
  simp [String.append_assoc]

lemma errorMessage_contains (e : String) :
    (∃ p q, errorMessage e = p ++ e ++ q) ∧
    (∃ p q, errorMessage e = p ++ "**Error Type:** Error" ++ q) := by
  constructor
  · refine ⟨"**Error Processing Comment**\n\nAn error occurred while processing this comment:\n\n```\n",
      "\n```\n\n**Error Type:** Error\n\nPlease check the bot logs for more details or try again later.\n\n---\n*AI Comment Fixer Bot*",
      ?_⟩
    unfold errorMessage
    simp [String.append_assoc]
  · refine ⟨"**Error Processing Comment**\n\nAn error occurred while processing this comment:\n\n```\n" ++
      e ++ "\n```\n\n",
      "\n\nPlease check the bot logs for more details or try again later.\n\n---\n*AI Comment Fixer Bot*",
      ?_⟩
    unfold errorMessage
    have hsplit :
        ("\n```\n\n**Error Type:** Error\n\nPlease check the bot logs for more details or try again later.\n\n---\n*AI Comment Fixer Bot*" : String) =
        "\n```\n\n" ++ "**Error Type:** Error" ++
          "\n\nPlease check the bot logs for more details or try again later.\n\n---\n*AI Comment Fixer Bot*" := rfl
    rw [hsplit]
    simp [String.append_assoc]

/-- C5 (amended): a processed non-skip event never posts more than one PR
comment, and provided each comment-creation API call succeeds it posts
exactly one, whose kind matches the outcome: the analysis comment
(`analysisMessage` body) when the verdict is not applied, the success
comment when the apply phase completes — its body containing the fix
branch name — and the error comment when the analysis fetch or the apply
phase throws — its body containing the error class (`Error`) and the
error message.  Without the proviso a posting failure is swallowed and
zero comments can result (see the counterexample). -/
theorem c5_exactly_one_comment (env : Env) (payload : GitHubWebhookPayload)
    (c : GitHubComment) (pr : GitHubPR)
    (hc : payload.comment = some c) (hpr : payload.pull_request = some pr)
    (hbot : c.userLogin ≠ "AI Comment Fixer Bot")
    (hok : ∀ b, env.createCommentResult b = .ok ()) :
    countPosts (processComment env payload) = 1 ∧
    (∀ env2 payload2, countPosts (processComment env2 payload2) ≤ 1) ∧
    (∀ e, (analyzeCommentProc env).2 = .error e →
      Eff.postComment .error (errorMessage e) ∈ processComment env payload) ∧
    (∀ a, (analyzeCommentProc env).2 = .ok a → a.shouldApply = false →
      Eff.postComment .analysis (analysisMessage a) ∈ processComment env payload) ∧
    (∀ a u evs2, (analyzeCommentProc env).2 = .ok a → a.shouldApply = true →
      applyChangesProc env c pr a = (evs2, .ok u) →
      Eff.postComment .success (successMessage
        (OpenAIService.generateChangeSummary env.summaryApiResult) a
        (GitService.createFixBranch pr.baseRef pr.number env.nowMs) pr.baseRef)
        ∈ processComment env payload) ∧
    (∀ a e evs2, (analyzeCommentProc env).2 = .ok a → a.shouldApply = true →
      applyChangesProc env c pr a = (evs2, .error e) →
      Eff.postComment .error (errorMessage e) ∈ processComment env payload) ∧
    (∀ summary a2 fixBranch baseRef, ∃ p q,
      successMessage summary a2 fixBranch baseRef = p ++ fixBranch ++ q) ∧
    (∀ e, (∃ p q, errorMessage e = p ++ e ++ q) ∧
      (∃ p q, errorMessage e = p ++ "**Error Type:** Error" ++ q)) := by
  refine ⟨?_, countPosts_le_one, ?_, ?_, ?_, ?_,
    successMessage_contains_branch, errorMessage_contains⟩
  · unfold processComment
    rw [hc, hpr]
    simp only [if_neg hbot]
    have hA0 := analyzeCommentProc_events env
    cases hA : analyzeCommentProc env with
    | mk evs res =>
      rw [hA] at hA0
      have hevs0 : countPosts evs = 0 := countPosts_eq_zero (all_not_post_of_fetch hA0)
      cases res with
      | error e =>
        dsimp only
        rw [handleError_posts_ok e hc hpr hok, countPosts_append, hevs0]
        simp [countPosts, isPost]
      | ok a =>
        dsimp only
        by_cases hS : a.shouldApply
        · simp only [hS, if_true]
          cases hap : applyChangesProc env c pr a with
          | mk evs2 r2 =>
            cases r2 with
            | ok u =>
              dsimp only
              obtain ⟨pre, msg, hsh, hpre, _, _, _⟩ := applyChangesProc_ok_events hap
              rw [countPosts_append, hevs0, hsh, countPosts_append,
                countPosts_eq_zero hpre]
              simp [countPosts, isPost]
            | error e =>
              dsimp only
              have hevs2 : countPosts evs2 = 0 :=
                countPosts_eq_zero (applyChangesProc_error_events hap)
              rw [countPosts_append, countPosts_append, hevs0, hevs2,
                handleError_posts_ok e hc hpr hok]
              simp [countPosts, isPost]
        · simp only [hS, if_false]
          cases hcc : env.createCommentResult (analysisMessage a) with
          | ok u =>
            dsimp only
            simp [countPosts_append, hevs0, countPosts, isPost]
            intro x hx
            exact not_post_of_fetch (List.all_eq_true.mp hA0 x hx)
          | error e =>
            rw [hok (analysisMessage a)] at hcc
            exact Except.noConfusion hcc
  · intro e hE
    unfold processComment
    rw [hc, hpr]
    simp only [if_neg hbot]
    cases hA : analyzeCommentProc env with
    | mk evs res =>
      rw [hA] at hE
      have hE2 : res = Except.error e := hE
      subst hE2
      dsimp only
      rw [handleError_posts_ok e hc hpr hok]
      simp
  · intro a hA2 hS
    unfold processComment
    rw [hc, hpr]
    simp only [if_neg hbot]
    cases hA : analyzeCommentProc env with
    | mk evs res =>
      rw [hA] at hA2
      have hE2 : res = Except.ok a := hA2
      subst hE2
      dsimp only
      simp only [hS, Bool.false_eq_true, if_false]
      cases hcc : env.createCommentResult (analysisMessage a) with
      | ok u => simp
      | error e =>
        rw [hok (analysisMessage a)] at hcc
        exact Except.noConfusion hcc
  · intro a u evs2 hA2 hS hap
    unfold processComment
    rw [hc, hpr]
    simp only [if_neg hbot]
    cases hA : analyzeCommentProc env with
    | mk evs res =>
      rw [hA] at hA2
      have hE2 : res = Except.ok a := hA2
      subst hE2
      dsimp only
      simp only [hS, if_true]
      rw [hap]
      dsimp only
      exact List.mem_append_right _ (applyChangesProc_ok_post hap)
  · intro a e evs2 hA2 hS hap
    unfold processComment
    rw [hc, hpr]
    simp only [if_neg hbot]
    cases hA : analyzeCommentProc env with
    | mk evs res =>
      rw [hA] at hA2
      have hE2 : res = Except.ok a := hA2
      subst hE2
      dsimp only
      simp only [hS, if_true]
      rw [hap]
      dsimp only
      rw [handleError_posts_ok e hc hpr hok]
      simp

/-- C5 (counterexample): when the comment-creation API fails, a non-skip
terminal outcome posts zero comments — `handleError` swallows the posting
failure — refuting "never zero comments". -/
theorem c5_counterexample :
    okPayload.comment = some userComment ∧
    okPayload.pull_request = some samplePR ∧
    userComment.userLogin ≠ "AI Comment Fixer Bot" ∧
    countPosts (processComment postFailEnv okPayload) = 0 := by
  refine ⟨rfl, rfl, by decide, rfl⟩

/-- C5 witness: the amended statement at a concrete reviewer comment with
a healthy comment API. -/
theorem c5_witness :
    (okPayload.comment = some userComment ∧ okPayload.pull_request = some samplePR ∧
     userComment.userLogin ≠ "AI Comment Fixer Bot" ∧
     (∀ b, baseEnv.createCommentResult b = .ok ())) ∧
    (countPosts (processComment baseEnv okPayload) = 1 ∧
     (∀ env2 payload2, countPosts (processComment env2 payload2) ≤ 1) ∧
     (∀ e, (analyzeCommentProc baseEnv).2 = .error e →
       Eff.postComment .error (errorMessage e) ∈ processComment baseEnv okPayload) ∧
     (∀ a, (analyzeCommentProc baseEnv).2 = .ok a → a.shouldApply = false →
       Eff.postComment .analysis (analysisMessage a) ∈ processComment baseEnv okPayload) ∧
     (∀ a u evs2, (analyzeCommentProc baseEnv).2 = .ok a → a.shouldApply = true →
       applyChangesProc baseEnv userComment samplePR a = (evs2, .ok u) →
       Eff.postComment .success (successMessage
         (OpenAIService.generateChangeSummary baseEnv.summaryApiResult) a
         (GitService.createFixBranch samplePR.baseRef samplePR.number baseEnv.nowMs)
         samplePR.baseRef)
         ∈ processComment baseEnv okPayload) ∧
     (∀ a e evs2, (analyzeCommentProc baseEnv).2 = .ok a → a.shouldApply = true →
       applyChangesProc baseEnv userComment samplePR a = (evs2, .error e) →
       Eff.postComment .error (errorMessage e) ∈ processComment baseEnv okPayload) ∧
     (∀ summary a2 fixBranch baseRef, ∃ p q,
       successMessage summary a2 fixBranch baseRef = p ++ fixBranch ++ q) ∧
     (∀ e, (∃ p q, errorMessage e = p ++ e ++ q) ∧
       (∃ p q, errorMessage e = p ++ "**Error Type:** Error" ++ q))) :=
  ⟨⟨rfl, rfl, by decide, fun _ => rfl⟩,
   c5_exactly_one_comment baseEnv okPayload userComment samplePR rfl rfl (by decide)
     (fun _ => rfl)⟩

lemma analysisMessage_contains_changes (a : AIAnalysisResult) (hne : a.changes ≠ []) :
    ∃ pre post, analysisMessage a = pre ++ changesLines a.changes ++ post := by
  have hlen : 0 < a.changes.length := List.length_pos.mpr hne
  refine ⟨"**AI Analysis**\n\n**Decision:** " ++
    (if a.shouldApply then "Will apply" else "Will not apply") ++
    "\n\n**Reasoning:** " ++ a.reasoning ++
    "\n\n**Confidence:** " ++ intStr (roundPercent a.confidence) ++ "%\n\n" ++
    "**Proposed Changes:**\n",
    "\n\n---\n*This analysis was performed by the AI Comment Fixer Bot*", ?_⟩
  unfold analysisMessage
  rw [if_pos hlen]
  apply String.ext
  simp [String.data_append, List.append_assoc]

/-- C10: for every verdict with `shouldApply = false` — even one carrying
a non-empty change list — no `GitService` operation and no file write
appears in the trace (the working copy is untouched); any analysis
comment posted carries exactly the `analysisMessage` body, and that body
echoes each change's filename and description via `changesLines`. -/
theorem c10_reject_frame (env : Env) (payload : GitHubWebhookPayload)
    (c : GitHubComment) (pr : GitHubPR)
    (hc : payload.comment = some c) (hpr : payload.pull_request = some pr)
    (hbot : c.userLogin ≠ "AI Comment Fixer Bot")
    (hS : (OpenAIService.analyzeComment env.aiApiResult).shouldApply = false) :
    (processComment env payload).all (fun e => !isGitEff e) = true ∧
    (∀ b, Eff.postComment .analysis b ∈ processComment env payload →
      b = analysisMessage (OpenAIService.analyzeComment env.aiApiResult)) ∧
    ((OpenAIService.analyzeComment env.aiApiResult).changes ≠ [] →
      ∃ pre post, analysisMessage (OpenAIService.analyzeComment env.aiApiResult) =
        pre ++ changesLines (OpenAIService.analyzeComment env.aiApiResult).changes ++ post) := by
  suffices h : (processComment env payload).all (fun e => !isGitEff e) = true ∧
      (∀ b, Eff.postComment .analysis b ∈ processComment env payload →
        b = analysisMessage (OpenAIService.analyzeComment env.aiApiResult)) by
    exact ⟨h.1, h.2, fun hne => analysisMessage_contains_changes _ hne⟩
  unfold processComment
  rw [hc, hpr]
  simp only [if_neg hbot]
  cases hF : env.filesResult with
  | error e =>
    have hA : analyzeCommentProc env = ([Eff.fetchFiles], .error e) := by
      unfold analyzeCommentProc
      rw [hF]
    simp only [hA]
    constructor
    · rw [List.all_append]
      rw [Bool.and_eq_true]
      refine ⟨by simp [isGitEff], ?_⟩
      refine List.all_eq_true.mpr fun x hx => ?_
      simpa using List.all_eq_true.mp (handleError_all_not_git env payload e) x hx
    · intro b hb
      rw [List.mem_append] at hb
      rcases hb with hb | hb
      · simp at hb
      · rcases handleError_cases env payload e with hh | hh <;> rw [hh] at hb <;> simp at hb
  | ok files =>
    have hA : analyzeCommentProc env =
        (Eff.fetchFiles :: (fetchContents env files).1 ++ [Eff.aiAnalyze],
         .ok (OpenAIService.analyzeComment env.aiApiResult)) := by
      unfold analyzeCommentProc
      rw [hF]
    have hfc := fetchContents_events env files
    simp only [hA]
    simp only [hS, Bool.false_eq_true, if_false]
    have hfetchgit : (Eff.fetchFiles :: (fetchContents env files).1 ++ [Eff.aiAnalyze]).all
        (fun e => !isGitEff e) = true := by
      refine List.all_eq_true.mpr fun x hx => ?_
      rcases List.mem_cons.mp hx with rfl | hx2
      · simp [isGitEff]
      · rcases List.mem_append.mp hx2 with hx3 | hx3
        · simpa using not_git_of_fetch (List.all_eq_true.mp hfc x hx3)
        · rw [List.mem_singleton] at hx3
          subst hx3
          simp [isGitEff]
    cases hcc : env.createCommentResult
        (analysisMessage (OpenAIService.analyzeComment env.aiApiResult)) with
    | ok u =>
      dsimp only
      constructor
      · rw [List.all_append]
        rw [Bool.and_eq_true]
        exact ⟨hfetchgit, by simp [isGitEff]⟩
      · intro b hb
        rw [List.mem_append] at hb
        rcases hb with hb | hb
        · rcases List.mem_cons.mp hb with hb2 | hb2
          · exact absurd hb2 (by simp)
          · rcases List.mem_append.mp hb2 with hb3 | hb3
            · have := List.all_eq_true.mp hfc _ hb3
              simp [isFetchEff] at this
            · simp at hb3
        · rw [List.mem_singleton] at hb
          simpa using hb
    | error e =>
      dsimp only
      constructor
      · rw [List.all_append]
        rw [Bool.and_eq_true]
        exact ⟨hfetchgit, handleError_all_not_git env payload e⟩
      · intro b hb
        rw [List.mem_append] at hb
        rcases hb with hb | hb
        · rcases List.mem_cons.mp hb with hb2 | hb2
          · exact absurd hb2 (by simp)
          · rcases List.mem_append.mp hb2 with hb3 | hb3
            · have := List.all_eq_true.mp hfc _ hb3
              simp [isFetchEff] at this
            · simp at hb3
        · rcases handleError_cases env payload e with hh | hh <;> rw [hh] at hb <;> simp at hb

/-- C4 witness: with one PR file whose content fetch 404s, the analysis
substitutes the placeholder and still reaches the Fix-Decision Engine. -/
theorem c4_fetch_failures_witness :
    (okPayload.comment = some userComment ∧ okPayload.pull_request = some samplePR ∧
     userComment.userLogin ≠ "AI Comment Fixer Bot" ∧
     contentFailEnv.filesResult = .ok [sampleFile]) ∧
    ((fetchContents contentFailEnv [sampleFile]).2 = [sampleFile].map (fun f =>
      (f.filename,
        match contentFailEnv.contentResult f.filename with
        | .ok ct => ct
        | .error _ => "File content not available")) ∧
     Eff.aiAnalyze ∈ processComment contentFailEnv okPayload) :=
  ⟨⟨rfl, rfl, by decide, rfl⟩,
   c4_fetch_failures contentFailEnv okPayload userComment samplePR [sampleFile]
     rfl rfl (by decide) rfl⟩

/-- C10 witness: with the AI service unreachable the verdict is the safe
default (`shouldApply = false`), and the reject path touches no git state. -/
theorem c10_reject_frame_witness :
    (okPayload.comment = some userComment ∧ okPayload.pull_request = some samplePR ∧
     userComment.userLogin ≠ "AI Comment Fixer Bot" ∧
     (OpenAIService.analyzeComment baseEnv.aiApiResult).shouldApply = false) ∧
    ((processComment baseEnv okPayload).all (fun e => !isGitEff e) = true ∧
     (∀ b, Eff.postComment .analysis b ∈ processComment baseEnv okPayload →
       b = analysisMessage (OpenAIService.analyzeComment baseEnv.aiApiResult)) ∧
     ((OpenAIService.analyzeComment baseEnv.aiApiResult).changes ≠ [] →
       ∃ pre post, analysisMessage (OpenAIService.analyzeComment baseEnv.aiApiResult) =
         pre ++ changesLines (OpenAIService.analyzeComment baseEnv.aiApiResult).changes ++ post)) :=
  ⟨⟨rfl, rfl, by decide, rfl⟩,
   c10_reject_frame baseEnv okPayload userComment samplePR rfl rfl (by decide) rfl⟩
